import Mathlib

/-!
Shallow embedding of the Gaussian / Gaussian-derivative kernel synthesis of
`Modules/Core/Common/include/itkGaussianDerivativeOperator.hxx` and of the
recursive separable filter interface of
`Code/BasicFilters/itkRecursiveSeparableImageFilter.h`.

All `double` arithmetic is modelled exactly over `ℚ`.  The two transcendental
primitives the code calls (`std::exp`, `std::sqrt`) are abstracted into a
record of functions `FloatOps`; every structural property is proved for an
arbitrary such record, adding only the positivity facts that the real
`exp`/`sqrt` satisfy where a proof needs them.  `CompensatedSummation<double>`
is modelled as an exact running sum (in exact arithmetic the compensation term
is identically zero).
-/

namespace ITKGaussian

/-- The transcendental primitives used by the C++ code: `std::exp`,
`std::sqrt`, and `std::pow` with a real exponent. -/
structure FloatOps where
  exp : ℚ → ℚ
  sqrt : ℚ → ℚ
  powR : ℚ → ℚ → ℚ

/-- `static_cast<int>` of a `double`: truncation toward zero. -/
def castInt (q : ℚ) : ℤ := if q < 0 then ⌈q⌉ else ⌊q⌋

/-- `ModifiedBesselI0` of itkGaussianDerivativeOperator.hxx: two-branch
rational approximation of the modified Bessel function I0. -/
def ModifiedBesselI0 (F : FloatOps) (y : ℚ) : ℚ :=
  let d : ℚ := |y|
  if d < 3.75 then
    let m : ℚ := y / 3.75 * (y / 3.75)
    1.0 + m * (3.5156229 + m * (3.0899424 + m * (1.2067492 + m * (0.2659732 +
      m * (0.360768e-1 + m * 0.45813e-2)))))
  else
    let m : ℚ := 3.75 / d
    (F.exp d / F.sqrt d) *
      (0.39894228 + m * (0.1328592e-1 + m * (0.225319e-2 + m * (-0.157565e-2 +
        m * (0.916281e-2 + m * (-0.2057706e-1 + m * (0.2635537e-1 +
          m * (-0.1647633e-1 + m * 0.392377e-2))))))))

/-- The accumulator of `ModifiedBesselI1` before the final sign adjustment
(the whole body of the function except the `if (y < 0)` return). -/
def besselI1abs (F : FloatOps) (y : ℚ) : ℚ :=
  let d : ℚ := |y|
  if d < 3.75 then
    let m : ℚ := y / 3.75 * (y / 3.75)
    d * (0.5 + m * (0.87890594 + m * (0.51498869 + m * (0.15084934 +
      m * (0.2658733e-1 + m * (0.301532e-2 + m * 0.32411e-3))))))
  else
    let m : ℚ := 3.75 / d
    let acc1 : ℚ := 0.2282967e-1 + m * (-0.2895312e-1 + m * (0.1787654e-1 - m * 0.420059e-2))
    let acc2 : ℚ := 0.39894228 + m * (-0.3988024e-1 + m * (-0.362018e-2 +
      m * (0.163801e-2 + m * (-0.1031555e-1 + m * acc1))))
    acc2 * (F.exp d / F.sqrt d)

/-- `ModifiedBesselI1` of itkGaussianDerivativeOperator.hxx. -/
def ModifiedBesselI1 (F : FloatOps) (y : ℚ) : ℚ :=
  if y < 0 then -(besselI1abs F y) else besselI1abs F y

/-- State of Miller's downward recurrence in `ModifiedBesselI`:
`qip` is the value one index above, `qi` the running value, `acc` the
captured value at index `n`. -/
structure MillerState where
  qip : ℚ
  qi : ℚ
  acc : ℚ

/-- One iteration of the `for (j = ...; j > 0; j--)` loop of
`ModifiedBesselI`: recurrence step, overflow rescale by `1e-10` when the
magnitude exceeds `1e10`, and capture of the value at index `n`. -/
def millerStep (toy : ℚ) (n j : ℤ) (s : MillerState) : MillerState :=
  let qim : ℚ := s.qip + (j : ℚ) * toy * s.qi
  let s1 : MillerState :=
    if 1.0e10 < |qim| then ⟨s.qi * 1.0e-10, qim * 1.0e-10, s.acc * 1.0e-10⟩
    else ⟨s.qi, qim, s.acc⟩
  if j = n then ⟨s1.qip, s1.qi, s1.qip⟩ else s1

/-- The descending index list `[J, J-1, ..., 1]` traversed by the loop
(empty when `J ≤ 0`). -/
def jList (J : ℤ) : List ℤ :=
  (List.range J.toNat).reverse.map (fun k : ℕ => (k : ℤ) + 1)

/-- The loop starting index `2 * (n + (int)(DIGITS * sqrt(n)))` with
`DIGITS = 10.0`. -/
def millerJ (F : FloatOps) (n : ℤ) : ℤ :=
  2 * (n + castInt (10.0 * F.sqrt (n : ℚ)))

/-- The body of `ModifiedBesselI` after the `n < 2` argument check:
the `y == 0` shortcut, Miller's downward recurrence, normalization by
`ModifiedBesselI0 y / qi`, and the sign flip for negative `y` and odd `n`. -/
def besselICore (F : FloatOps) (n : ℤ) (y : ℚ) : ℚ :=
  if y = 0 then 0
  else
    let toy : ℚ := 2.0 / |y|
    let s : MillerState :=
      (jList (millerJ F n)).foldl (fun s j => millerStep toy n j s) ⟨0, 1, 0⟩
    let a : ℚ := s.acc * ModifiedBesselI0 F y / s.qi
    if y < 0 ∧ n % 2 = 1 then -a else a

/-- `ModifiedBesselI` of itkGaussianDerivativeOperator.hxx: throws
`ExceptionObject` when `n < 2` (checked before anything else), otherwise
evaluates the recurrence. -/
def ModifiedBesselI (F : FloatOps) (n : ℤ) (y : ℚ) : Except String ℚ :=
  if n < 2 then Except.error "Order of modified bessel is > 2."
  else Except.ok (besselICore F n y)

/-- `NumericTraits<double>::epsilon()`, the binary64 machine epsilon. -/
def doubleEpsilon : ℚ := 1 / 2 ^ 52

/-- Result of the tap-accumulation loop of `GenerateGaussianCoefficients`:
the one-sided coefficient list plus the two non-fatal warning conditions
(`itkWarningMacro` calls) that can stop it. -/
structure GaussLoopOut where
  coeffs : List ℚ
  truncationWarning : Bool
  precisionWarning : Bool

/-- The `for (int i = 2; sum < cap; ++i)` loop of
`GenerateGaussianCoefficients`.  `gen i` is `et * ModifiedBesselI(i, pixelVariance)`.
Each pass appends one tap, adds twice the tap to the running sum, then tests
the precision stop (`coeff[i] < sum * epsilon`, a precision warning) and the
width stop (`coeff.size() > maxW`, a truncation warning).  The fuel argument
only bounds the recursion; it is chosen large enough (`maxW + 1`) that the
width stop always fires first. -/
def gaussLoop (gen : ℕ → ℚ) (cap : ℚ) (maxW : ℕ) :
    ℕ → ℕ → List ℚ → ℚ → GaussLoopOut
  | 0, _, coeffs, _ => ⟨coeffs, false, false⟩
  | fuel + 1, i, coeffs, sum =>
    if sum < cap then
      let c : ℚ := gen i
      let coeffs1 : List ℚ := coeffs ++ [c]
      let sum1 : ℚ := sum + c * 2.0
      if c < sum1 * doubleEpsilon then ⟨coeffs1, false, true⟩
      else if maxW < coeffs1.length then ⟨coeffs1, true, false⟩
      else gaussLoop gen cap maxW fuel (i + 1) coeffs1 sum1
    else ⟨coeffs, false, false⟩

/-- Result of `GenerateGaussianCoefficients`: the full mirrored kernel and
the warning flags raised while accumulating taps. -/
structure GaussKernelResult where
  kernel : List ℚ
  truncationWarning : Bool
  precisionWarning : Bool

/-- `m_Variance / (m_Spacing * m_Spacing)` of `GenerateGaussianCoefficients`. -/
def pixelVariance (variance spacing : ℚ) : ℚ := variance / (spacing * spacing)

/-- The seed tap `coeff[0] = exp(-pixelVariance) * ModifiedBesselI0(pixelVariance)`. -/
def gaussSeed0 (F : FloatOps) (variance spacing : ℚ) : ℚ :=
  F.exp (-pixelVariance variance spacing) *
    ModifiedBesselI0 F (pixelVariance variance spacing)

/-- The seed tap `coeff[1] = exp(-pixelVariance) * ModifiedBesselI1(pixelVariance)`. -/
def gaussSeed1 (F : FloatOps) (variance spacing : ℚ) : ℚ :=
  F.exp (-pixelVariance variance spacing) *
    ModifiedBesselI1 F (pixelVariance variance spacing)

/-- The tap `coeff[i] = exp(-pixelVariance) * ModifiedBesselI(i, pixelVariance)`
appended by the accumulation loop (its index `i` is at least `2`, so the
`n < 2` exception of `ModifiedBesselI` cannot fire and the value is
`besselICore`). -/
def gaussGen (F : FloatOps) (variance spacing : ℚ) (i : ℕ) : ℚ :=
  F.exp (-pixelVariance variance spacing) *
    besselICore F (i : ℤ) (pixelVariance variance spacing)

/-- The one-sided tap accumulation of `GenerateGaussianCoefficients`: the two
seed taps followed by the `for (int i = 2; ...)` loop, with running sum
seeded to `coeff[0] + coeff[1] * 2`. -/
def gaussHalf (F : FloatOps) (variance spacing maximumError : ℚ)
    (maximumKernelWidth : ℕ) : GaussLoopOut :=
  gaussLoop (gaussGen F variance spacing) (1.0 - maximumError) maximumKernelWidth
    (maximumKernelWidth + 1) 2 [gaussSeed0 F variance spacing, gaussSeed1 F variance spacing]
    (gaussSeed0 F variance spacing + gaussSeed1 F variance spacing * 2.0)

/-- The final two stages of `GenerateGaussianCoefficients`: re-accumulate
the normalizing sum from the smallest tap (largest index) to the largest
(`sum = accumulate(rbegin, rend-1, 0.0)`, then `sum *= 2.0`, then
`sum += coeff[0]`), divide every tap by it, and mirror all taps but the
first to the front. -/
def normalizeAndMirror (half : List ℚ) : List ℚ :=
  let s : ℚ := ((half.drop 1).reverse).foldl (· + ·) 0.0
  let sum : ℚ := s * 2.0 + half.headD 0
  let normalized : List ℚ := half.map (· / sum)
  (normalized.drop 1).reverse ++ normalized

/-- `GenerateGaussianCoefficients` of itkGaussianDerivativeOperator.hxx:
seeds `coeff[0] = et*I0(pixelVariance)`, `coeff[1] = et*I1(pixelVariance)`,
accumulates further taps `et*I(i, pixelVariance)` until the sum reaches
`1 - maximumError` (or a warning stops the loop), re-accumulates the
normalizing sum from the smallest tap to the largest
(`accumulate(rbegin, rend-1)`, doubled, plus `coeff[0]`), divides every tap
by it, and mirrors all taps but the first to the front
(`coeff.insert(begin, s, 0)` followed by `copy_n(rbegin, s, begin)`). -/
def GenerateGaussianCoefficientsFull (F : FloatOps)
    (variance spacing maximumError : ℚ) (maximumKernelWidth : ℕ) :
    GaussKernelResult :=
  let out := gaussHalf F variance spacing maximumError maximumKernelWidth
  ⟨normalizeAndMirror out.coeffs, out.truncationWarning, out.precisionWarning⟩

/-- The kernel returned by `GenerateGaussianCoefficients` (warnings are a
side channel). -/
def GenerateGaussianCoefficients (F : FloatOps)
    (variance spacing maximumError : ℚ) (maximumKernelWidth : ℕ) : List ℚ :=
  (GenerateGaussianCoefficientsFull F variance spacing maximumError maximumKernelWidth).kernel

/-- The inner correlation loop of `GenerateCoefficients` at output index `i`:
`conv += paddedCoeff[i + j - derivOp.size()/2] * derivOp[derivOp.size()-1-j]`
accumulated over `j`, with `CompensatedSummation` modelled as an exact sum. -/
def convLoop (padded derivOp : List ℚ) (i : ℕ) : ℚ :=
  (List.range derivOp.length).foldl
    (fun acc j => acc + padded.getD (i + j - derivOp.length / 2) 0 *
      derivOp.getD (derivOp.length - 1 - j) 0) 0.0

/-- The same correlation written as a `Finset` sum. -/
def convAt (padded derivOp : List ℚ) (i : ℕ) : ℚ :=
  ∑ j ∈ Finset.range derivOp.length,
    padded.getD (i + j - derivOp.length / 2) 0 * derivOp.getD (derivOp.length - 1 - j) 0

/-- The padded order-0 kernel built by `GenerateCoefficients`: the Gaussian
kernel with `2N-1` copies of its first tap prepended and `2N-1` copies of its
last tap appended (`N = (derivOp.size()-1)/2`), the net effect of the
`paddedCoeff` copy and the two `std::fill` calls. -/
def paddedGauss (gauss : List ℚ) (N : ℕ) : List ℚ :=
  List.replicate (2 * N - 1) (gauss.headD 0) ++ gauss ++
    List.replicate (2 * N - 1) (gauss.getLastD 0)

/-- `GenerateCoefficients` of itkGaussianDerivativeOperator.hxx.  The
derivative operator produced by the external `DerivativeOperatorType` (its
`CreateDirectional()` is outside this translation unit) is passed in as the
tap list `derivOp`.  Order 0 returns the Gaussian kernel unchanged; otherwise
each output tap is `norm` times the correlation of the padded Gaussian with
the reversed derivative operator, where
`norm = (normalizeAcrossScale ? variance^(order/2) : 1) / spacing^order`. -/
def GenerateCoefficients (F : FloatOps) (variance spacing maximumError : ℚ)
    (maximumKernelWidth : ℕ) (order : ℕ) (normalizeAcrossScale : Bool)
    (derivOp : List ℚ) : List ℚ :=
  let coeff : List ℚ :=
    GenerateGaussianCoefficients F variance spacing maximumError maximumKernelWidth
  if order = 0 then coeff
  else
    let norm : ℚ :=
      (if normalizeAcrossScale then F.powR variance ((order : ℚ) / 2.0) else 1.0) /
        spacing ^ order
    let N : ℕ := (derivOp.length - 1) / 2
    let padded : List ℚ := paddedGauss coeff N
    (List.range (padded.length - 2 * N)).map (fun p => norm * convLoop padded derivOp (p + N))

end ITKGaussian

namespace ITKRecursive

/-- The coefficient record of `RecursiveSeparableImageFilter`: causal
feed-forward taps `n00..n33`, shared feedback taps `d11..d44`, anticausal
feed-forward taps `m11..m44`, and the normalization scalar `K`. -/
structure RecursionCoefficients where
  n00 : ℚ
  n11 : ℚ
  n22 : ℚ
  n33 : ℚ
  d11 : ℚ
  d22 : ℚ
  d33 : ℚ
  d44 : ℚ
  m11 : ℚ
  m22 : ℚ
  m33 : ℚ
  m44 : ℚ
  K : ℚ

/-- Modelled from the spec: the causal recurrence body of `FilterDataArray`
(itkRecursiveSeparableImageFilter.txx is not part of the sources, only its
declaration in the header), §4.4 step 1:
`y[i] = n00·x[i] + n11·x[i-1] + n22·x[i-2] + n33·x[i-3]
      - d11·y[i-1] - d22·y[i-2] - d33·y[i-3] - d44·y[i-4]`. -/
def causalStep (c : RecursionCoefficients) (x0 x1 x2 x3 y1 y2 y3 y4 : ℚ) : ℚ :=
  c.n00 * x0 + c.n11 * x1 + c.n22 * x2 + c.n33 * x3 -
    c.d11 * y1 - c.d22 * y2 - c.d33 * y3 - c.d44 * y4

/-- Modelled from the spec: the anticausal recurrence body of
`FilterDataArray`, §4.4 step 2:
`z[i] = m11·x[i+1] + m22·x[i+2] + m33·x[i+3] + m44·x[i+4]
      - d11·z[i+1] - d22·z[i+2] - d33·z[i+3] - d44·z[i+4]`. -/
def anticausalStep (c : RecursionCoefficients) (x1 x2 x3 x4 z1 z2 z3 z4 : ℚ) : ℚ :=
  c.m11 * x1 + c.m22 * x2 + c.m33 * x3 + c.m44 * x4 -
    c.d11 * z1 - c.d22 * z2 - c.d33 * z3 - c.d44 * z4

/-- Modelled from the spec: the forward causal pass over a line of length `L`
with out-of-range history treated as zero; `x` is the line extended by zero
outside `[0, L)`. -/
def causalList (c : RecursionCoefficients) (x : ℤ → ℚ) (L : ℕ) : List ℚ :=
  ((List.range L).foldl
    (fun acc i =>
      let y : ℚ := causalStep c (x (i : ℤ)) (x ((i : ℤ) - 1)) (x ((i : ℤ) - 2))
        (x ((i : ℤ) - 3)) acc.2.1 acc.2.2.1 acc.2.2.2.1 acc.2.2.2.2
      (acc.1 ++ [y], y, acc.2.1, acc.2.2.1, acc.2.2.2.1))
    (([] : List ℚ), (0 : ℚ), (0 : ℚ), (0 : ℚ), (0 : ℚ))).1

/-- Modelled from the spec: the backward anticausal pass over a line of
length `L`, indices `L-1` down to `0`, out-of-range history zero. -/
def anticausalList (c : RecursionCoefficients) (x : ℤ → ℚ) (L : ℕ) : List ℚ :=
  ((List.range L).foldl
    (fun acc k =>
      let i : ℤ := (L : ℤ) - 1 - (k : ℤ)
      let z : ℚ := anticausalStep c (x (i + 1)) (x (i + 2)) (x (i + 3)) (x (i + 4))
        acc.2.1 acc.2.2.1 acc.2.2.2.1 acc.2.2.2.2
      (z :: acc.1, z, acc.2.1, acc.2.2.1, acc.2.2.2.1))
    (([] : List ℚ), (0 : ℚ), (0 : ℚ), (0 : ℚ), (0 : ℚ))).1

/-- Modelled from the spec: `FilterDataArray` combines the causal and
anticausal passes sample-wise as `out[i] = K · (y[i] + z[i])` (§4.4 step 3). -/
def FilterDataArray (c : RecursionCoefficients) (x : ℤ → ℚ) (L : ℕ) : List ℚ :=
  List.zipWith (fun a b => c.K * (a + b)) (causalList c x L) (anticausalList c x L)

end ITKRecursive

namespace ITKGaussian

/-- `std::accumulate` with `+` is list summation. -/
lemma foldl_add_eq_sum (l : List ℚ) (a : ℚ) : l.foldl (· + ·) a = a + l.sum := by
  induction l generalizing a with
  | nil => simp
  | cons x xs ih => simp [List.foldl_cons, ih, List.sum_cons]; ring

/-- Dividing every element divides the sum. -/
lemma sum_map_div (l : List ℚ) (S : ℚ) : (l.map (· / S)).sum = l.sum / S := by
  induction l with
  | nil => simp
  | cons x xs ih => simp [ih, add_div]

/-- The accumulation loop only appends to its input tap list. -/
lemma gaussLoop_append (gen : ℕ → ℚ) (cap : ℚ) (maxW : ℕ) :
    ∀ (fuel i : ℕ) (coeffs : List ℚ) (sum : ℚ),
      ∃ r, (gaussLoop gen cap maxW fuel i coeffs sum).coeffs = coeffs ++ r := by
  intro fuel
  induction fuel with
  | zero => intro i coeffs sum; exact ⟨[], by simp [gaussLoop]⟩
  | succ fuel ih =>
    intro i coeffs sum
    by_cases h1 : sum < cap
    · by_cases h2 : gen i < (sum + gen i * 2.0) * doubleEpsilon
      · exact ⟨[gen i], by simp [gaussLoop, h1, h2]⟩
      · by_cases h3 : maxW < coeffs.length + 1
        · exact ⟨[gen i], by simp [gaussLoop, h1, h2, h3]⟩
        · obtain ⟨r, hr⟩ := ih (i + 1) (coeffs ++ [gen i]) (sum + gen i * 2.0)
          exact ⟨[gen i] ++ r, by simp only [gaussLoop, if_pos h1, if_neg h2,
            List.length_append, List.length_singleton, if_neg h3, hr, List.append_assoc,
            List.singleton_append]⟩
    · exact ⟨[], by simp [gaussLoop, h1]⟩

/-- All taps stay nonnegative when the seeds and the generator are. -/
lemma gaussLoop_nonneg (gen : ℕ → ℚ) (cap : ℚ) (maxW : ℕ)
    (hgen : ∀ j, 0 ≤ gen j) :
    ∀ (fuel i : ℕ) (coeffs : List ℚ) (sum : ℚ), (∀ x ∈ coeffs, 0 ≤ x) →
      ∀ x ∈ (gaussLoop gen cap maxW fuel i coeffs sum).coeffs, 0 ≤ x := by
  intro fuel
  induction fuel with
  | zero => intro i coeffs sum hc; simpa [gaussLoop] using hc
  | succ fuel ih =>
    intro i coeffs sum hc
    have hc1 : ∀ x ∈ coeffs ++ [gen i], 0 ≤ x := by
      intro x hx
      rcases List.mem_append.mp hx with h | h
      · exact hc x h
      · rcases List.mem_singleton.mp h with rfl; exact hgen i
    by_cases h1 : sum < cap
    · by_cases h2 : gen i < (sum + gen i * 2.0) * doubleEpsilon
      · simpa [gaussLoop, h1, h2] using hc1
      · by_cases h3 : maxW < coeffs.length + 1
        · simpa [gaussLoop, h1, h2, h3] using hc1
        · simpa [gaussLoop, h1, h2, h3] using
            ih (i + 1) (coeffs ++ [gen i]) (sum + gen i * 2.0) hc1
    · simpa [gaussLoop, h1] using hc

/-- The loop never grows the tap list past `maxW + 1` entries. -/
lemma gaussLoop_length_le (gen : ℕ → ℚ) (cap : ℚ) (maxW : ℕ) :
    ∀ (fuel i : ℕ) (coeffs : List ℚ) (sum : ℚ), coeffs.length ≤ maxW →
      (gaussLoop gen cap maxW fuel i coeffs sum).coeffs.length ≤ maxW + 1 := by
  intro fuel
  induction fuel with
  | zero => intro i coeffs sum hc; simp [gaussLoop]; omega
  | succ fuel ih =>
    intro i coeffs sum hc
    by_cases h1 : sum < cap
    · by_cases h2 : gen i < (sum + gen i * 2.0) * doubleEpsilon
      · simp [gaussLoop, h1, h2]; omega
      · by_cases h3 : maxW < coeffs.length + 1
        · simp [gaussLoop, h1, h2, h3]; omega
        · have := ih (i + 1) (coeffs ++ [gen i]) (sum + gen i * 2.0) (by simp; omega)
          simpa [gaussLoop, h1, h2, h3] using this
    · simp [gaussLoop, h1]; omega

/-- When the loop stops with the truncation warning the tap list has exactly
`maxW + 1` entries. -/
lemma gaussLoop_trunc_length (gen : ℕ → ℚ) (cap : ℚ) (maxW : ℕ) :
    ∀ (fuel i : ℕ) (coeffs : List ℚ) (sum : ℚ), coeffs.length ≤ maxW →
      (gaussLoop gen cap maxW fuel i coeffs sum).truncationWarning = true →
      (gaussLoop gen cap maxW fuel i coeffs sum).coeffs.length = maxW + 1 := by
  intro fuel
  induction fuel with
  | zero => intro i coeffs sum hc ht; simp [gaussLoop] at ht
  | succ fuel ih =>
    intro i coeffs sum hc ht
    by_cases h1 : sum < cap
    · by_cases h2 : gen i < (sum + gen i * 2.0) * doubleEpsilon
      · simp [gaussLoop, h1, h2] at ht
      · by_cases h3 : maxW < coeffs.length + 1
        · simp [gaussLoop, h1, h2, h3]
          omega
        · have := ih (i + 1) (coeffs ++ [gen i]) (sum + gen i * 2.0) (by simp; omega)
          simp only [gaussLoop, if_pos h1, if_neg h2, List.length_append,
            List.length_singleton, if_neg h3] at ht ⊢
          exact this ht
    · simp [gaussLoop, h1] at ht

/-- The mirrored kernel is a palindrome. -/
lemma mirror_reverse (l : List ℚ) :
    ((l.drop 1).reverse ++ l).reverse = (l.drop 1).reverse ++ l := by
  cases l with
  | nil => simp
  | cons h t => simp [List.reverse_append]

/-- Length of the mirrored kernel. -/
lemma mirror_length (l : List ℚ) :
    ((l.drop 1).reverse ++ l).length = 2 * l.length - 1 := by
  cases l with
  | nil => simp
  | cons h t => simp [List.length_append]; omega

/-- Sum of the mirrored kernel: every tap but the head is counted twice. -/
lemma mirror_sum (l : List ℚ) :
    ((l.drop 1).reverse ++ l).sum = 2 * l.sum - l.headD 0 := by
  cases l with
  | nil => simp
  | cons h t => simp [List.sum_append, List.sum_reverse]; ring

/-- Indexing a palindrome from either end gives the same value. -/
lemma palindrome_getD (l : List ℚ) (hl : l.reverse = l) (i : ℕ) (hi : i < l.length) :
    l.getD i 0 = l.getD (l.length - 1 - i) 0 := by
  have hi2 : l.length - 1 - i < l.length := by omega
  have hrev : i < l.reverse.length := by simpa using hi
  have h1 : l.reverse.getD i 0 = l.getD (l.length - 1 - i) 0 := by
    rw [List.getD_eq_getElem _ _ hrev, List.getD_eq_getElem _ _ hi2]
    exact List.getElem_reverse hrev
  rw [← h1, hl]

end ITKGaussian

namespace ITKGaussian

/-- Horner step: a nonnegative tail keeps the partial value above the
constant term. -/
lemma horner_step_pos (a : ℚ) {m q : ℚ} (hm0 : 0 ≤ m) (hq : 0 ≤ q) :
    a ≤ a + m * q := by nlinarith

/-- Horner step: for `0 ≤ m ≤ 1` a tail bounded below by `lb ≤ 0` lowers the
partial value by at most `lb`. -/
lemma horner_step_neg (a : ℚ) {m q lb : ℚ} (hm0 : 0 ≤ m) (hm1 : m ≤ 1)
    (hq : lb ≤ q) (hlb : lb ≤ 0) : a + lb ≤ a + m * q := by nlinarith

/-- The small-argument polynomial branch of `ModifiedBesselI0` is at least 1,
and the large-argument rational series is positive on `0 ≤ m ≤ 1`; together
with `exp > 0` and `sqrt > 0` this makes `ModifiedBesselI0` positive. -/
lemma ModifiedBesselI0_pos (F : FloatOps) (hexp : ∀ x, 0 < F.exp x)
    (hsqrt : ∀ x, (3.75 : ℚ) ≤ x → 0 < F.sqrt x) (y : ℚ) :
    0 < ModifiedBesselI0 F y := by
  rw [ModifiedBesselI0]
  by_cases hd : |y| < 3.75
  · simp only [if_pos hd]
    have hm : (0:ℚ) ≤ y / 3.75 * (y / 3.75) := mul_self_nonneg _
    generalize hmq : (y / 3.75 * (y / 3.75) : ℚ) = m at hm ⊢
    generalize hq5 : (0.360768e-1 + m * 0.45813e-2 : ℚ) = q5
    generalize hq4 : (0.2659732 + m * q5 : ℚ) = q4
    generalize hq3 : (1.2067492 + m * q4 : ℚ) = q3
    generalize hq2 : (3.0899424 + m * q3 : ℚ) = q2
    generalize hq1 : (3.5156229 + m * q2 : ℚ) = q1
    have b5 : (0:ℚ) ≤ q5 := by rw [← hq5]; nlinarith
    have b4 : (0:ℚ) ≤ q4 := by rw [← hq4]; nlinarith [mul_nonneg hm b5]
    have b3 : (0:ℚ) ≤ q3 := by rw [← hq3]; nlinarith [mul_nonneg hm b4]
    have b2 : (0:ℚ) ≤ q2 := by rw [← hq2]; nlinarith [mul_nonneg hm b3]
    have b1 : (0:ℚ) ≤ q1 := by rw [← hq1]; nlinarith [mul_nonneg hm b2]
    nlinarith [mul_nonneg hm b1]
  · simp only [if_neg hd]
    push_neg at hd
    have habs : (0:ℚ) < |y| := lt_of_lt_of_le (by norm_num) hd
    have hm0 : (0:ℚ) < 3.75 / |y| := by positivity
    have hm1 : (3.75 : ℚ) / |y| ≤ 1 := by rw [div_le_one habs]; exact hd
    have he : (0:ℚ) < F.exp |y| / F.sqrt |y| := div_pos (hexp _) (hsqrt _ hd)
    generalize hmq : (3.75 / |y| : ℚ) = m at hm0 hm1 ⊢
    generalize hq7 : (-0.1647633e-1 + m * 0.392377e-2 : ℚ) = q7
    generalize hq6 : (0.2635537e-1 + m * q7 : ℚ) = q6
    generalize hq5 : (-0.2057706e-1 + m * q6 : ℚ) = q5
    generalize hq4 : (0.916281e-2 + m * q5 : ℚ) = q4
    generalize hq3 : (-0.157565e-2 + m * q4 : ℚ) = q3
    generalize hq2 : (0.225319e-2 + m * q3 : ℚ) = q2
    generalize hq1 : (0.1328592e-1 + m * q2 : ℚ) = q1
    have b7 : (-0.1647633e-1 : ℚ) ≤ q7 := by
      rw [← hq7]
      nlinarith [mul_nonneg hm0.le (by norm_num : (0:ℚ) ≤ 0.392377e-2)]
    have b6 : (0.987904e-2 : ℚ) ≤ q6 := by
      rw [← hq6]
      have := horner_step_neg 0.2635537e-1 hm0.le hm1 b7 (by norm_num)
      linarith
    have b5 : (-0.2057706e-1 : ℚ) ≤ q5 := by
      rw [← hq5]
      have := horner_step_pos (-0.2057706e-1) hm0.le (by linarith : (0:ℚ) ≤ q6)
      linarith
    have b4 : (-0.1141425e-1 : ℚ) ≤ q4 := by
      rw [← hq4]
      have := horner_step_neg 0.916281e-2 hm0.le hm1 b5 (by norm_num)
      linarith
    have b3 : (-0.129899e-1 : ℚ) ≤ q3 := by
      rw [← hq3]
      have := horner_step_neg (-0.157565e-2) hm0.le hm1 b4 (by norm_num)
      linarith
    have b2 : (-0.1073671e-1 : ℚ) ≤ q2 := by
      rw [← hq2]
      have := horner_step_neg 0.225319e-2 hm0.le hm1 b3 (by norm_num)
      linarith
    have b1 : (0.254921e-2 : ℚ) ≤ q1 := by
      rw [← hq1]
      have := horner_step_neg 0.1328592e-1 hm0.le hm1 b2 (by norm_num)
      linarith
    have tp : (0:ℚ) < 0.39894228 + m * q1 := by
      have := horner_step_pos 0.39894228 hm0.le (by linarith : (0:ℚ) ≤ q1)
      linarith
    exact mul_pos he tp

/-- The pre-sign accumulator of `ModifiedBesselI1` is nonnegative. -/
lemma besselI1abs_nonneg (F : FloatOps) (hexp : ∀ x, 0 < F.exp x)
    (hsqrt : ∀ x, (3.75 : ℚ) ≤ x → 0 < F.sqrt x) (y : ℚ) :
    0 ≤ besselI1abs F y := by
  rw [besselI1abs]
  by_cases hd : |y| < 3.75
  · simp only [if_pos hd]
    have hm : (0:ℚ) ≤ y / 3.75 * (y / 3.75) := mul_self_nonneg _
    generalize hmq : (y / 3.75 * (y / 3.75) : ℚ) = m at hm ⊢
    generalize hq6 : (0.301532e-2 + m * 0.32411e-3 : ℚ) = q6
    generalize hq5 : (0.2658733e-1 + m * q6 : ℚ) = q5
    generalize hq4 : (0.15084934 + m * q5 : ℚ) = q4
    generalize hq3 : (0.51498869 + m * q4 : ℚ) = q3
    generalize hq2 : (0.87890594 + m * q3 : ℚ) = q2
    generalize hq1 : (0.5 + m * q2 : ℚ) = q1
    have b6 : (0:ℚ) ≤ q6 := by rw [← hq6]; nlinarith
    have b5 : (0:ℚ) ≤ q5 := by rw [← hq5]; nlinarith [mul_nonneg hm b6]
    have b4 : (0:ℚ) ≤ q4 := by rw [← hq4]; nlinarith [mul_nonneg hm b5]
    have b3 : (0:ℚ) ≤ q3 := by rw [← hq3]; nlinarith [mul_nonneg hm b4]
    have b2 : (0:ℚ) ≤ q2 := by rw [← hq2]; nlinarith [mul_nonneg hm b3]
    have b1 : (0:ℚ) ≤ q1 := by rw [← hq1]; nlinarith [mul_nonneg hm b2]
    exact mul_nonneg (abs_nonneg y) b1
  · simp only [if_neg hd]
    push_neg at hd
    have habs : (0:ℚ) < |y| := lt_of_lt_of_le (by norm_num) hd
    have hm0 : (0:ℚ) < 3.75 / |y| := by positivity
    have hm1 : (3.75 : ℚ) / |y| ≤ 1 := by rw [div_le_one habs]; exact hd
    have he : (0:ℚ) < F.exp |y| / F.sqrt |y| := div_pos (hexp _) (hsqrt _ hd)
    generalize hmq : (3.75 / |y| : ℚ) = m at hm0 hm1 ⊢
    generalize hr3 : (0.1787654e-1 - m * 0.420059e-2 : ℚ) = r3
    generalize hr2 : (-0.2895312e-1 + m * r3 : ℚ) = r2
    generalize ha1 : (0.2282967e-1 + m * r2 : ℚ) = acc1
    generalize hs5 : (-0.1031555e-1 + m * acc1 : ℚ) = s5
    generalize hs4 : (0.163801e-2 + m * s5 : ℚ) = s4
    generalize hs3 : (-0.362018e-2 + m * s4 : ℚ) = s3
    generalize hs2 : (-0.3988024e-1 + m * s3 : ℚ) = s2
    have c3 : (0.1367595e-1 : ℚ) ≤ r3 := by
      rw [← hr3]; nlinarith
    have c2 : (-0.2895312e-1 : ℚ) ≤ r2 := by
      rw [← hr2]
      have := horner_step_pos (-0.2895312e-1) hm0.le (by linarith : (0:ℚ) ≤ r3)
      linarith
    have d1 : (-0.612345e-2 : ℚ) ≤ acc1 := by
      rw [← ha1]
      have := horner_step_neg 0.2282967e-1 hm0.le hm1 c2 (by norm_num)
      linarith
    have e5 : (-0.16439e-1 : ℚ) ≤ s5 := by
      rw [← hs5]
      have := horner_step_neg (-0.1031555e-1) hm0.le hm1 d1 (by norm_num)
      linarith
    have e4 : (-0.1480099e-1 : ℚ) ≤ s4 := by
      rw [← hs4]
      have := horner_step_neg 0.163801e-2 hm0.le hm1 e5 (by norm_num)
      linarith
    have e3 : (-0.1842117e-1 : ℚ) ≤ s3 := by
      rw [← hs3]
      have := horner_step_neg (-0.362018e-2) hm0.le hm1 e4 (by norm_num)
      linarith
    have e2 : (-0.5830141e-1 : ℚ) ≤ s2 := by
      rw [← hs2]
      have := horner_step_neg (-0.3988024e-1) hm0.le hm1 e3 (by norm_num)
      linarith
    have f2 : (0:ℚ) ≤ 0.39894228 + m * s2 := by
      have := horner_step_neg 0.39894228 hm0.le hm1 e2 (by norm_num)
      linarith
    exact mul_nonneg f2 he.le

end ITKGaussian

namespace ITKGaussian

/-- For nonnegative arguments `ModifiedBesselI1` does not negate and is
nonnegative. -/
lemma ModifiedBesselI1_nonneg (F : FloatOps) (hexp : ∀ x, 0 < F.exp x)
    (hsqrt : ∀ x, (3.75 : ℚ) ≤ x → 0 < F.sqrt x) (y : ℚ) (hy : 0 ≤ y) :
    0 ≤ ModifiedBesselI1 F y := by
  rw [ModifiedBesselI1, if_neg (not_lt.mpr hy)]
  exact besselI1abs_nonneg F hexp hsqrt y

/-- The Miller-recurrence invariant: previous value nonnegative, running
value positive, captured value nonnegative. -/
def MillerInv (s : MillerState) : Prop := 0 ≤ s.qip ∧ 0 < s.qi ∧ 0 ≤ s.acc

/-- One recurrence step preserves the invariant when the loop index is
positive and `toy > 0`. -/
lemma millerStep_inv (toy : ℚ) (htoy : 0 < toy) (n j : ℤ) (hj : 1 ≤ j)
    (s : MillerState) (hs : MillerInv s) : MillerInv (millerStep toy n j s) := by
  obtain ⟨h1, h2, h3⟩ := hs
  have hqim : 0 < s.qip + (j : ℚ) * toy * s.qi := by
    have hj' : (1 : ℚ) ≤ (j : ℚ) := by exact_mod_cast hj
    have hjt : 0 < (j : ℚ) * toy := mul_pos (by linarith) htoy
    have hjtq : 0 < (j : ℚ) * toy * s.qi := mul_pos hjt h2
    linarith
  rw [millerStep]
  by_cases hb : (1.0e10 : ℚ) < |s.qip + (j : ℚ) * toy * s.qi|
  · simp only [if_pos hb]
    by_cases hn : j = n
    · simp only [if_pos hn, MillerInv]
      refine ⟨by positivity, by positivity, by positivity⟩
    · simp only [if_neg hn, MillerInv]
      refine ⟨by positivity, by positivity, by positivity⟩
  · simp only [if_neg hb]
    by_cases hn : j = n
    · simp only [if_pos hn, MillerInv]
      exact ⟨h2.le, hqim, h2.le⟩
    · simp only [if_neg hn, MillerInv]
      exact ⟨h2.le, hqim, h3⟩

/-- Folding the recurrence over any list of positive indices preserves the
invariant. -/
lemma millerFold_inv (toy : ℚ) (htoy : 0 < toy) (n : ℤ) (l : List ℤ)
    (hl : ∀ j ∈ l, 1 ≤ j) (s : MillerState) (hs : MillerInv s) :
    MillerInv (l.foldl (fun s j => millerStep toy n j s) s) := by
  induction l generalizing s with
  | nil => simpa using hs
  | cons j js ih =>
    simp only [List.foldl_cons]
    exact ih (fun k hk => hl k (List.mem_cons_of_mem j hk))
      (millerStep toy n j s) (millerStep_inv toy htoy n j (hl j (List.mem_cons_self j js)) s hs)

/-- Every index in the descending loop list is at least 1. -/
lemma jList_pos (J : ℤ) : ∀ j ∈ jList J, 1 ≤ j := by
  intro j hj
  rw [jList] at hj
  obtain ⟨k, -, rfl⟩ := List.mem_map.mp hj
  show (1 : ℤ) ≤ (k : ℤ) + 1
  omega

/-- The downward recurrence of `ModifiedBesselI` produces a nonnegative
value for positive arguments (any order). -/
lemma besselICore_nonneg (F : FloatOps) (hexp : ∀ x, 0 < F.exp x)
    (hsqrt : ∀ x, (3.75 : ℚ) ≤ x → 0 < F.sqrt x) (n : ℤ) (y : ℚ) (hy : 0 < y) :
    0 ≤ besselICore F n y := by
  rw [besselICore, if_neg (ne_of_gt hy)]
  have htoy : (0:ℚ) < 2.0 / |y| := by positivity
  have hinv : MillerInv ((jList (millerJ F n)).foldl
      (fun s j => millerStep (2.0 / |y|) n j s) ⟨0, 1, 0⟩) :=
    millerFold_inv _ htoy n _ (jList_pos _) _ ⟨le_refl 0, one_pos, le_refl 0⟩
  obtain ⟨h1, h2, h3⟩ := hinv
  have hI0 := ModifiedBesselI0_pos F hexp hsqrt y
  have hnotneg : ¬ (y < 0 ∧ n % 2 = 1) := by
    rintro ⟨hneg, -⟩; exact absurd hy (not_lt.mpr hneg.le)
  simp only [if_neg hnotneg]
  positivity

end ITKGaussian

namespace ITKGaussian

/-- The mirrored normalized kernel is a palindrome. -/
lemma normalizeAndMirror_reverse (half : List ℚ) :
    (normalizeAndMirror half).reverse = normalizeAndMirror half := by
  rw [normalizeAndMirror]
  exact mirror_reverse _

/-- Length of the mirrored normalized kernel. -/
lemma normalizeAndMirror_length (half : List ℚ) :
    (normalizeAndMirror half).length = 2 * half.length - 1 := by
  rw [normalizeAndMirror]
  rw [mirror_length]
  simp

/-- With a positive head tap and nonnegative taps, the normalization makes
the mirrored kernel sum to exactly 1. -/
lemma normalizeAndMirror_sum_one (half : List ℚ) (h0 : 0 < half.headD 0)
    (hall : ∀ x ∈ half, 0 ≤ x) : (normalizeAndMirror half).sum = 1 := by
  cases half with
  | nil => simp at h0
  | cons c0 t =>
    have hc0 : 0 < c0 := by simpa using h0
    have ht : 0 ≤ t.sum := List.sum_nonneg fun x hx => hall x (List.mem_cons_of_mem c0 hx)
    rw [normalizeAndMirror]
    simp only [List.drop_succ_cons, List.drop_zero]
    rw [foldl_add_eq_sum, List.sum_reverse]
    have hS : (0:ℚ) < (0.0 + t.sum) * 2.0 + (c0 :: t).headD 0 := by
      simp only [List.headD_cons]
      nlinarith
    rw [mirror_sum, sum_map_div]
    simp only [List.headD_cons, List.sum_cons, List.map_cons, List.headD_cons]
    have hSne : (0.0 + t.sum) * 2.0 + c0 ≠ 0 := by
      simpa using hS.ne.symm
    field_simp
    ring

/-- The loop output starts with the two seed taps. -/
lemma gaussHalf_cons (F : FloatOps) (variance spacing maximumError : ℚ)
    (maximumKernelWidth : ℕ) :
    ∃ r, (gaussHalf F variance spacing maximumError maximumKernelWidth).coeffs =
      gaussSeed0 F variance spacing :: gaussSeed1 F variance spacing :: r := by
  obtain ⟨r, hr⟩ := gaussLoop_append (gaussGen F variance spacing) (1.0 - maximumError)
    maximumKernelWidth (maximumKernelWidth + 1) 2
    [gaussSeed0 F variance spacing, gaussSeed1 F variance spacing]
    (gaussSeed0 F variance spacing + gaussSeed1 F variance spacing * 2.0)
  exact ⟨r, by simpa [gaussHalf] using hr⟩

/-- For positive variance and spacing every one-sided tap is nonnegative. -/
lemma gaussHalf_nonneg (F : FloatOps) (hexp : ∀ x, 0 < F.exp x)
    (hsqrt : ∀ x, (3.75 : ℚ) ≤ x → 0 < F.sqrt x)
    (variance spacing maximumError : ℚ) (maximumKernelWidth : ℕ)
    (hv : 0 < variance) (hs : 0 < spacing) :
    ∀ x ∈ (gaussHalf F variance spacing maximumError maximumKernelWidth).coeffs, 0 ≤ x := by
  have hpv : 0 < pixelVariance variance spacing := by
    rw [pixelVariance]; positivity
  have hseeds : ∀ x ∈ [gaussSeed0 F variance spacing, gaussSeed1 F variance spacing], 0 ≤ x := by
    intro x hx
    rcases List.mem_cons.mp hx with rfl | hx
    · exact (mul_pos (hexp _) (ModifiedBesselI0_pos F hexp hsqrt _)).le
    · rcases List.mem_singleton.mp hx with rfl
      exact mul_nonneg (hexp _).le (ModifiedBesselI1_nonneg F hexp hsqrt _ hpv.le)
  exact gaussLoop_nonneg (gaussGen F variance spacing) (1.0 - maximumError) maximumKernelWidth
    (fun j => mul_nonneg (hexp _).le (besselICore_nonneg F hexp hsqrt _ _ hpv))
    (maximumKernelWidth + 1) 2 _ _ hseeds

/-- For positive variance and spacing the head tap is positive. -/
lemma gaussHalf_headD_pos (F : FloatOps) (hexp : ∀ x, 0 < F.exp x)
    (hsqrt : ∀ x, (3.75 : ℚ) ≤ x → 0 < F.sqrt x)
    (variance spacing maximumError : ℚ) (maximumKernelWidth : ℕ) :
    0 < (gaussHalf F variance spacing maximumError maximumKernelWidth).coeffs.headD 0 := by
  obtain ⟨r, hr⟩ := gaussHalf_cons F variance spacing maximumError maximumKernelWidth
  rw [hr]
  simpa using mul_pos (hexp _) (ModifiedBesselI0_pos F hexp hsqrt _)

/-- C1 (helper form): the kernel sums to exactly 1 and is a palindrome. -/
lemma gaussKernel_exact (F : FloatOps) (hexp : ∀ x, 0 < F.exp x)
    (hsqrt : ∀ x, (3.75 : ℚ) ≤ x → 0 < F.sqrt x)
    (variance spacing maximumError : ℚ) (maximumKernelWidth : ℕ)
    (hv : 0 < variance) (hs : 0 < spacing) :
    (GenerateGaussianCoefficients F variance spacing maximumError maximumKernelWidth).sum = 1 ∧
    (GenerateGaussianCoefficients F variance spacing maximumError maximumKernelWidth).reverse =
      GenerateGaussianCoefficients F variance spacing maximumError maximumKernelWidth := by
  constructor
  · exact normalizeAndMirror_sum_one _
      (gaussHalf_headD_pos F hexp hsqrt variance spacing maximumError maximumKernelWidth)
      (gaussHalf_nonneg F hexp hsqrt variance spacing maximumError maximumKernelWidth hv hs)
  · exact normalizeAndMirror_reverse _

/-- A concrete all-ones operation record for instantiating positivity
hypotheses. -/
def allOneOps : FloatOps := ⟨fun _ => 1, fun _ => 1, fun _ _ => 1⟩

/-- A concrete all-zero operation record for concrete evaluations. -/
def allZeroOps : FloatOps := ⟨fun _ => 0, fun _ => 0, fun _ _ => 0⟩

/-- C1: For every variance > 0 and spacing > 0, the order-0 kernel returned
by `GenerateGaussianCoefficients` sums to 1 within `1e-10` and is symmetric
about its center: `kernel[i] == kernel[length-1-i]` for every index `i`
(proved for any `exp`/`sqrt` satisfying the positivity of the real ones; in
exact arithmetic the sum is exactly 1). -/
theorem gaussKernel_sum_one_and_symmetric (F : FloatOps)
    (hexp : ∀ x, 0 < F.exp x) (hsqrt : ∀ x, (3.75 : ℚ) ≤ x → 0 < F.sqrt x)
    (variance spacing maximumError : ℚ) (maximumKernelWidth : ℕ)
    (hv : 0 < variance) (hs : 0 < spacing) :
    |(GenerateGaussianCoefficients F variance spacing maximumError maximumKernelWidth).sum - 1|
        ≤ 1e-10 ∧
    ∀ i < (GenerateGaussianCoefficients F variance spacing maximumError
        maximumKernelWidth).length,
      (GenerateGaussianCoefficients F variance spacing maximumError
        maximumKernelWidth).getD i 0 =
      (GenerateGaussianCoefficients F variance spacing maximumError
        maximumKernelWidth).getD
        ((GenerateGaussianCoefficients F variance spacing maximumError
          maximumKernelWidth).length - 1 - i) 0 := by
  obtain ⟨hsum, hrev⟩ := gaussKernel_exact F hexp hsqrt variance spacing maximumError
    maximumKernelWidth hv hs
  constructor
  · rw [hsum]
    norm_num
  · intro i hi
    exact palindrome_getD _ hrev i hi

/-- Witness for C1 at `variance = 1`, `spacing = 1`, `maximumError = 1/2`,
`maximumKernelWidth = 5` with the all-ones operation record. -/
theorem gaussKernel_sum_one_and_symmetric_witness :
    (∀ x, 0 < allOneOps.exp x) ∧ (∀ x, (3.75 : ℚ) ≤ x → 0 < allOneOps.sqrt x) ∧
    (0 : ℚ) < 1 ∧
    (|(GenerateGaussianCoefficients allOneOps 1 1 (1/2) 5).sum - 1| ≤ 1e-10 ∧
      ∀ i < (GenerateGaussianCoefficients allOneOps 1 1 (1/2) 5).length,
        (GenerateGaussianCoefficients allOneOps 1 1 (1/2) 5).getD i 0 =
        (GenerateGaussianCoefficients allOneOps 1 1 (1/2) 5).getD
          ((GenerateGaussianCoefficients allOneOps 1 1 (1/2) 5).length - 1 - i) 0) :=
  ⟨fun _ => one_pos, fun _ _ => one_pos, one_pos,
    gaussKernel_sum_one_and_symmetric allOneOps (fun _ => one_pos) (fun _ _ => one_pos)
      1 1 (1/2) 5 one_pos one_pos⟩

/-- C10: for every parameter setting the kernel returned by
`GenerateGaussianCoefficients` has odd length and at least 3 taps: the two
seed taps are always produced before any stopping condition is tested, and
mirroring yields length `2*len - 1`. -/
theorem gaussKernel_odd_length_ge_three (F : FloatOps)
    (variance spacing maximumError : ℚ) (maximumKernelWidth : ℕ) :
    Odd (GenerateGaussianCoefficients F variance spacing maximumError
        maximumKernelWidth).length ∧
    3 ≤ (GenerateGaussianCoefficients F variance spacing maximumError
        maximumKernelWidth).length := by
  obtain ⟨r, hr⟩ := gaussHalf_cons F variance spacing maximumError maximumKernelWidth
  have hlen : (GenerateGaussianCoefficients F variance spacing maximumError
      maximumKernelWidth).length =
      2 * (gaussHalf F variance spacing maximumError maximumKernelWidth).coeffs.length - 1 := by
    rw [GenerateGaussianCoefficients, GenerateGaussianCoefficientsFull]
    exact normalizeAndMirror_length _
  have hhl : 2 ≤ (gaussHalf F variance spacing maximumError maximumKernelWidth).coeffs.length := by
    rw [hr]; simp
  rw [hlen, Nat.odd_iff]
  omega

/-- C2 (amended): the one-sided tap list is clamped at
`maximumKernelWidth + 1` entries, so the mirrored kernel returned by
`GenerateGaussianCoefficients` has at most `2*maximumKernelWidth + 1` taps;
when the loop stops on the width clamp the truncation warning is set and the
kernel has exactly `2*maximumKernelWidth + 1` taps. -/
theorem gaussKernel_truncation_bound (F : FloatOps)
    (variance spacing maximumError : ℚ) (maximumKernelWidth : ℕ)
    (hw : 2 ≤ maximumKernelWidth) :
    (GenerateGaussianCoefficientsFull F variance spacing maximumError
        maximumKernelWidth).kernel.length ≤ 2 * maximumKernelWidth + 1 ∧
    ((GenerateGaussianCoefficientsFull F variance spacing maximumError
        maximumKernelWidth).truncationWarning = true →
      (GenerateGaussianCoefficientsFull F variance spacing maximumError
        maximumKernelWidth).kernel.length = 2 * maximumKernelWidth + 1) := by
  have hstart : ([gaussSeed0 F variance spacing, gaussSeed1 F variance spacing] : List ℚ).length
      ≤ maximumKernelWidth := by simpa using hw
  have hle := gaussLoop_length_le (gaussGen F variance spacing) (1.0 - maximumError)
    maximumKernelWidth (maximumKernelWidth + 1) 2 _
    (gaussSeed0 F variance spacing + gaussSeed1 F variance spacing * 2.0) hstart
  have htr := gaussLoop_trunc_length (gaussGen F variance spacing) (1.0 - maximumError)
    maximumKernelWidth (maximumKernelWidth + 1) 2 _
    (gaussSeed0 F variance spacing + gaussSeed1 F variance spacing * 2.0) hstart
  obtain ⟨r, hr⟩ := gaussHalf_cons F variance spacing maximumError maximumKernelWidth
  have hhl : 2 ≤ (gaussHalf F variance spacing maximumError maximumKernelWidth).coeffs.length := by
    rw [hr]; simp
  have hlen : (GenerateGaussianCoefficientsFull F variance spacing maximumError
      maximumKernelWidth).kernel.length =
      2 * (gaussHalf F variance spacing maximumError maximumKernelWidth).coeffs.length - 1 := by
    rw [GenerateGaussianCoefficientsFull]
    exact normalizeAndMirror_length _
  constructor
  · rw [hlen]
    have : (gaussHalf F variance spacing maximumError maximumKernelWidth).coeffs.length
        ≤ maximumKernelWidth + 1 := hle
    omega
  · intro ht
    have ht' : (gaussHalf F variance spacing maximumError maximumKernelWidth).truncationWarning
        = true := ht
    have : (gaussHalf F variance spacing maximumError maximumKernelWidth).coeffs.length
        = maximumKernelWidth + 1 := htr ht'
    rw [hlen, this]
    omega

/-- Witness for C2's amended bound at `maximumKernelWidth = 5`. -/
theorem gaussKernel_truncation_bound_witness :
    (2 ≤ 5) ∧
    ((GenerateGaussianCoefficientsFull allOneOps 1 1 (1/2) 5).kernel.length ≤ 2 * 5 + 1 ∧
      ((GenerateGaussianCoefficientsFull allOneOps 1 1 (1/2) 5).truncationWarning = true →
        (GenerateGaussianCoefficientsFull allOneOps 1 1 (1/2) 5).kernel.length = 2 * 5 + 1)) :=
  ⟨by decide, gaussKernel_truncation_bound allOneOps 1 1 (1/2) 5 (by decide)⟩

/-- C2 (counterexample to the claim as stated): with
`maximumKernelWidth = 5` and taps whose accumulation never reaches the cap,
the loop is truncated (warning set) yet returns a mirrored kernel of 11 taps,
not at most 5. -/
theorem maxWidth_five_kernel_has_eleven_taps :
    (GenerateGaussianCoefficientsFull allZeroOps 1 1 (1/2) 5).truncationWarning = true ∧
    ¬ (GenerateGaussianCoefficientsFull allZeroOps 1 1 (1/2) 5).kernel.length ≤ 5 := by
  norm_num [GenerateGaussianCoefficientsFull, gaussHalf, gaussSeed0, gaussSeed1, gaussGen,
    pixelVariance, normalizeAndMirror, gaussLoop, allZeroOps, ModifiedBesselI0, besselI1abs,
    ModifiedBesselI1, besselICore, millerStep, jList, millerJ, castInt, doubleEpsilon,
    List.range_succ]

/-- C4: for every `y` and every integer `n < 2`, `ModifiedBesselI` raises
the InvalidArgument exception and produces no value. -/
theorem modifiedBesselI_small_order_errors (F : FloatOps) (n : ℤ) (y : ℚ)
    (hn : n < 2) :
    ModifiedBesselI F n y = Except.error "Order of modified bessel is > 2." := by
  rw [ModifiedBesselI, if_pos hn]

/-- Witness for C4 at `n = 0`, `y = 5`. -/
theorem modifiedBesselI_small_order_errors_witness :
    ((0 : ℤ) < 2) ∧
    ModifiedBesselI allOneOps 0 5 = Except.error "Order of modified bessel is > 2." :=
  ⟨by decide, modifiedBesselI_small_order_errors allOneOps 0 5 (by decide)⟩

/-- C8: for every integer `n ≥ 2`, `ModifiedBesselI n 0` returns exactly 0
through the `y == 0` shortcut, before the downward recurrence. -/
theorem modifiedBesselI_zero_argument (F : FloatOps) (n : ℤ) (hn : 2 ≤ n) :
    ModifiedBesselI F n 0 = Except.ok 0 := by
  rw [ModifiedBesselI, if_neg (not_lt.mpr hn), besselICore, if_pos rfl]

/-- Witness for C8 at `n = 2`. -/
theorem modifiedBesselI_zero_argument_witness :
    ((2 : ℤ) ≤ 2) ∧ ModifiedBesselI allOneOps 2 0 = Except.ok 0 :=
  ⟨by decide, modifiedBesselI_zero_argument allOneOps 2 (by decide)⟩

/-- C9: the `n < 2` argument check precedes the `y == 0` shortcut:
`ModifiedBesselI(0, 0)` and `ModifiedBesselI(1, 0)` raise InvalidArgument
instead of returning 0. -/
theorem modifiedBesselI_order_check_precedes_zero_shortcut (F : FloatOps) :
    ModifiedBesselI F 0 0 = Except.error "Order of modified bessel is > 2." ∧
    ModifiedBesselI F 1 0 = Except.error "Order of modified bessel is > 2." := by
  constructor
  · rw [ModifiedBesselI, if_pos (by norm_num)]
  · rw [ModifiedBesselI, if_pos (by norm_num)]

/-- The pre-sign accumulator of `ModifiedBesselI1` depends on `y` only
through `|y|` and `(y/3.75)^2`, hence is even in `y`. -/
lemma besselI1abs_neg (F : FloatOps) (y : ℚ) :
    besselI1abs F (-y) = besselI1abs F y := by
  rw [besselI1abs, besselI1abs]
  simp only [abs_neg, neg_div, neg_mul_neg]

/-- `besselI1abs` vanishes at 0. -/
lemma besselI1abs_zero (F : FloatOps) : besselI1abs F 0 = 0 := by
  rw [besselI1abs]
  norm_num

/-- C7: `ModifiedBesselI1` is an odd function:
`ModifiedBesselI1(-y) = -ModifiedBesselI1(y)` for every `y`. -/
theorem modifiedBesselI1_odd (F : FloatOps) (y : ℚ) :
    ModifiedBesselI1 F (-y) = -(ModifiedBesselI1 F y) := by
  rw [ModifiedBesselI1, ModifiedBesselI1, besselI1abs_neg]
  rcases lt_trichotomy y 0 with h | h | h
  · rw [if_neg (by linarith), if_pos h, neg_neg]
  · subst h
    rw [if_neg (by norm_num), if_neg (by norm_num), besselI1abs_zero, neg_zero]
  · rw [if_pos (by linarith), if_neg (by linarith)]

/-- Folding addition over `List.range` is the `Finset.range` sum. -/
lemma foldl_range_add (f : ℕ → ℚ) (a : ℚ) (n : ℕ) :
    (List.range n).foldl (fun acc j => acc + f j) a = a + ∑ j ∈ Finset.range n, f j := by
  induction n with
  | zero => simp
  | succ n ih =>
    rw [List.range_succ, List.foldl_append, ih, Finset.sum_range_succ]
    simp [add_assoc]

/-- The compensated correlation loop computes the correlation sum. -/
lemma convLoop_eq_convAt (padded dOp : List ℚ) (i : ℕ) :
    convLoop padded dOp i = convAt padded dOp i := by
  rw [convLoop, convAt, foldl_range_add]
  norm_num

/-- The order-0 kernel always has at least 3 taps. -/
lemma gaussKernel_length_ge (F : FloatOps) (variance spacing maximumError : ℚ)
    (maximumKernelWidth : ℕ) :
    3 ≤ (GenerateGaussianCoefficients F variance spacing maximumError
      maximumKernelWidth).length := by
  obtain ⟨r, hr⟩ := gaussHalf_cons F variance spacing maximumError maximumKernelWidth
  have hlen : (GenerateGaussianCoefficients F variance spacing maximumError
      maximumKernelWidth).length =
      2 * (gaussHalf F variance spacing maximumError maximumKernelWidth).coeffs.length - 1 := by
    rw [GenerateGaussianCoefficients, GenerateGaussianCoefficientsFull]
    exact normalizeAndMirror_length _
  have hhl : 2 ≤ (gaussHalf F variance spacing maximumError maximumKernelWidth).coeffs.length := by
    rw [hr]; simp
  omega

/-- C3 (amended): for order `k > 0` the kernel returned by
`GenerateCoefficients` has `2*(N-1)` taps more than the unpadded order-0
Gaussian kernel, where `N = (derivOp.length - 1)/2` is the radius of the
external derivative operator; the lengths agree exactly when `N = 1`. -/
theorem derivKernel_length_formula (F : FloatOps)
    (variance spacing maximumError : ℚ) (maximumKernelWidth : ℕ)
    (order : ℕ) (normalizeAcrossScale : Bool) (derivOp : List ℚ)
    (h0 : 0 < order) (h3 : 3 ≤ derivOp.length) :
    (GenerateCoefficients F variance spacing maximumError maximumKernelWidth
        order normalizeAcrossScale derivOp).length =
    (GenerateGaussianCoefficients F variance spacing maximumError
        maximumKernelWidth).length + 2 * ((derivOp.length - 1) / 2 - 1) := by
  have hg3 := gaussKernel_length_ge F variance spacing maximumError maximumKernelWidth
  have hN : 1 ≤ (derivOp.length - 1) / 2 := by omega
  rw [GenerateCoefficients, if_neg (by omega : ¬ order = 0)]
  simp only [List.length_map, List.length_range, paddedGauss, List.length_append,
    List.length_replicate]
  omega

/-- Witness for C3's amended length formula at a radius-2 derivative
operator. -/
theorem derivKernel_length_formula_witness :
    (0 < 1) ∧ (3 ≤ ([1, 0, 0, 0, -1] : List ℚ).length) ∧
    (GenerateCoefficients allOneOps 1 1 (1/2) 5 1 false [1, 0, 0, 0, -1]).length =
      (GenerateGaussianCoefficients allOneOps 1 1 (1/2) 5).length +
        2 * ((([1, 0, 0, 0, -1] : List ℚ).length - 1) / 2 - 1) :=
  ⟨by decide, by decide,
    derivKernel_length_formula allOneOps 1 1 (1/2) 5 1 false [1, 0, 0, 0, -1]
      (by decide) (by decide)⟩

/-- C3 (counterexample to the claim as stated): with a radius-2 derivative
operator the order-1 kernel is longer than the unpadded Gaussian kernel. -/
theorem derivKernel_length_differs :
    ¬ ((GenerateCoefficients allZeroOps 1 1 (1/2) 2 1 false [1, 0, 0, 0, -1]).length =
       (GenerateGaussianCoefficients allZeroOps 1 1 (1/2) 2).length) := by
  norm_num [GenerateCoefficients, GenerateGaussianCoefficients,
    GenerateGaussianCoefficientsFull, gaussHalf, gaussSeed0, gaussSeed1, gaussGen,
    pixelVariance, normalizeAndMirror, gaussLoop, allZeroOps, ModifiedBesselI0, besselI1abs,
    ModifiedBesselI1, besselICore, millerStep, jList, millerJ, castInt, doubleEpsilon,
    List.range_succ, paddedGauss, convLoop]

/-- C6: for order `k > 0` every tap of the kernel returned by
`GenerateCoefficients` is `norm` times the correlation of the padded
Gaussian with the reversed derivative operator at that position, where
`norm = (normalizeAcrossScale ? variance^(k/2) : 1) / spacing^k`. -/
theorem derivKernel_taps_scaled (F : FloatOps)
    (variance spacing maximumError : ℚ) (maximumKernelWidth : ℕ)
    (order : ℕ) (normalizeAcrossScale : Bool) (derivOp : List ℚ)
    (h0 : 0 < order) :
    GenerateCoefficients F variance spacing maximumError maximumKernelWidth
        order normalizeAcrossScale derivOp =
    (List.range ((paddedGauss (GenerateGaussianCoefficients F variance spacing
          maximumError maximumKernelWidth) ((derivOp.length - 1) / 2)).length -
        2 * ((derivOp.length - 1) / 2))).map
      (fun p =>
        ((if normalizeAcrossScale then F.powR variance ((order : ℚ) / 2.0) else 1.0) /
            spacing ^ order) *
          convAt (paddedGauss (GenerateGaussianCoefficients F variance spacing
              maximumError maximumKernelWidth) ((derivOp.length - 1) / 2)) derivOp
            (p + (derivOp.length - 1) / 2)) := by
  rw [GenerateCoefficients, if_neg (by omega : ¬ order = 0)]
  simp only [convLoop_eq_convAt]

/-- Witness for C6 at order 1 with a radius-1 derivative operator. -/
theorem derivKernel_taps_scaled_witness :
    (0 < 1) ∧
    GenerateCoefficients allOneOps 1 1 (1/2) 5 1 false [2⁻¹, 0, -2⁻¹] =
    (List.range ((paddedGauss (GenerateGaussianCoefficients allOneOps 1 1 (1/2) 5)
          ((([2⁻¹, 0, -2⁻¹] : List ℚ).length - 1) / 2)).length -
        2 * ((([2⁻¹, 0, -2⁻¹] : List ℚ).length - 1) / 2))).map
      (fun p =>
        ((if false then allOneOps.powR 1 ((1 : ℚ) / 2.0) else 1.0) / (1 : ℚ) ^ 1) *
          convAt (paddedGauss (GenerateGaussianCoefficients allOneOps 1 1 (1/2) 5)
              ((([2⁻¹, 0, -2⁻¹] : List ℚ).length - 1) / 2)) [2⁻¹, 0, -2⁻¹]
            (p + (([2⁻¹, 0, -2⁻¹] : List ℚ).length - 1) / 2)) :=
  ⟨by decide, derivKernel_taps_scaled allOneOps 1 1 (1/2) 5 1 false [2⁻¹, 0, -2⁻¹] (by decide)⟩

end ITKGaussian

namespace ITKRecursive

/-- Coefficients for the concrete counterexample: a pure one-sample delay
(`n11 = 1`, all feedback and anticausal taps zero, `K = 1`); its combined
causal + anticausal DC gain is exactly 1. -/
def sampleCoefficients : RecursionCoefficients := ⟨0, 1, 0, 0, 0, 0, 0, 0, 0, 0, 0, 0, 1⟩

/-- A line of four samples of value 7, extended by zero outside `[0, 4)`. -/
def constantLine7 : ℤ → ℚ := fun i => if 0 ≤ i ∧ i < 4 then 7 else 0

/-- C5 (counterexample to the claim as stated): a coefficient record with
correctly normalized `K` (combined DC gain 1) for which the first output
sample of the filtered constant line of 7.0 is 0, far outside 1e-6 of 7.0 —
the zero start-up history of the recursion leaves a boundary transient. -/
theorem recursiveFilter_boundary_deviation :
    (1 + (sampleCoefficients.d11 + sampleCoefficients.d22 + sampleCoefficients.d33 +
        sampleCoefficients.d44) ≠ 0) ∧
    sampleCoefficients.K * ((sampleCoefficients.n00 + sampleCoefficients.n11 +
        sampleCoefficients.n22 + sampleCoefficients.n33) +
        (sampleCoefficients.m11 + sampleCoefficients.m22 + sampleCoefficients.m33 +
        sampleCoefficients.m44)) =
      1 + (sampleCoefficients.d11 + sampleCoefficients.d22 + sampleCoefficients.d33 +
        sampleCoefficients.d44) ∧
    ¬ ∀ o ∈ FilterDataArray sampleCoefficients constantLine7 4, |o - 7| ≤ 1e-6 := by
  refine ⟨by norm_num [sampleCoefficients], by norm_num [sampleCoefficients], ?_⟩
  norm_num [FilterDataArray, causalList, anticausalList, causalStep, anticausalStep,
    sampleCoefficients, constantLine7, List.range_succ]

/-- C5 (amended): with `K` normalized so that the combined causal +
anticausal DC gain is 1, the steady-state responses to the constant line 7.0
reproduce 7.0 exactly: the constant sequences `yc = 7·Σn/(1+Σd)` and
`zc = 7·Σm/(1+Σd)` are fixed points of the causal and anticausal recurrence
bodies on constant input 7, and `K·(yc + zc) = 7`.  Samples computed with
zeroed start-up history can deviate near the line ends. -/
theorem recursiveFilter_unit_dc_gain (c : RecursionCoefficients)
    (hD : 1 + (c.d11 + c.d22 + c.d33 + c.d44) ≠ 0)
    (hK : c.K * ((c.n00 + c.n11 + c.n22 + c.n33) + (c.m11 + c.m22 + c.m33 + c.m44)) =
      1 + (c.d11 + c.d22 + c.d33 + c.d44)) :
    causalStep c 7 7 7 7
        (7 * (c.n00 + c.n11 + c.n22 + c.n33) / (1 + (c.d11 + c.d22 + c.d33 + c.d44)))
        (7 * (c.n00 + c.n11 + c.n22 + c.n33) / (1 + (c.d11 + c.d22 + c.d33 + c.d44)))
        (7 * (c.n00 + c.n11 + c.n22 + c.n33) / (1 + (c.d11 + c.d22 + c.d33 + c.d44)))
        (7 * (c.n00 + c.n11 + c.n22 + c.n33) / (1 + (c.d11 + c.d22 + c.d33 + c.d44))) =
      7 * (c.n00 + c.n11 + c.n22 + c.n33) / (1 + (c.d11 + c.d22 + c.d33 + c.d44)) ∧
    anticausalStep c 7 7 7 7
        (7 * (c.m11 + c.m22 + c.m33 + c.m44) / (1 + (c.d11 + c.d22 + c.d33 + c.d44)))
        (7 * (c.m11 + c.m22 + c.m33 + c.m44) / (1 + (c.d11 + c.d22 + c.d33 + c.d44)))
        (7 * (c.m11 + c.m22 + c.m33 + c.m44) / (1 + (c.d11 + c.d22 + c.d33 + c.d44)))
        (7 * (c.m11 + c.m22 + c.m33 + c.m44) / (1 + (c.d11 + c.d22 + c.d33 + c.d44))) =
      7 * (c.m11 + c.m22 + c.m33 + c.m44) / (1 + (c.d11 + c.d22 + c.d33 + c.d44)) ∧
    c.K * (7 * (c.n00 + c.n11 + c.n22 + c.n33) / (1 + (c.d11 + c.d22 + c.d33 + c.d44)) +
        7 * (c.m11 + c.m22 + c.m33 + c.m44) / (1 + (c.d11 + c.d22 + c.d33 + c.d44))) = 7 := by
  refine ⟨?_, ?_, ?_⟩
  · rw [causalStep]
    field_simp
    ring
  · rw [anticausalStep]
    field_simp
    ring
  · field_simp
    linear_combination 7 * hK

/-- Witness for C5's amended DC-gain property at the delay coefficients. -/
theorem recursiveFilter_unit_dc_gain_witness :
    (1 + (sampleCoefficients.d11 + sampleCoefficients.d22 + sampleCoefficients.d33 +
        sampleCoefficients.d44) ≠ 0) ∧
    sampleCoefficients.K * ((sampleCoefficients.n00 + sampleCoefficients.n11 +
        sampleCoefficients.n22 + sampleCoefficients.n33) +
        (sampleCoefficients.m11 + sampleCoefficients.m22 + sampleCoefficients.m33 +
        sampleCoefficients.m44)) =
      1 + (sampleCoefficients.d11 + sampleCoefficients.d22 + sampleCoefficients.d33 +
        sampleCoefficients.d44) ∧
    sampleCoefficients.K *
        (7 * (sampleCoefficients.n00 + sampleCoefficients.n11 + sampleCoefficients.n22 +
            sampleCoefficients.n33) /
          (1 + (sampleCoefficients.d11 + sampleCoefficients.d22 + sampleCoefficients.d33 +
            sampleCoefficients.d44)) +
          7 * (sampleCoefficients.m11 + sampleCoefficients.m22 + sampleCoefficients.m33 +
            sampleCoefficients.m44) /
          (1 + (sampleCoefficients.d11 + sampleCoefficients.d22 + sampleCoefficients.d33 +
            sampleCoefficients.d44))) = 7 :=
  ⟨by simp [sampleCoefficients], by simp [sampleCoefficients],
    (recursiveFilter_unit_dc_gain sampleCoefficients (by simp [sampleCoefficients])
      (by simp [sampleCoefficients])).2.2⟩

end ITKRecursive
